import Mathlib

/-!
Verification of the spectral-coaddition core of the `prospect` spectra viewer.

The embedding below translates, over exact rational arithmetic:
  * `_coadd` (utils_specviewer.py, lines 361-394): inverse-variance weighted
    coadd of several exposures of one band;
  * `coadd_targets` (utils_specviewer.py, lines 396-471): per-target, per-band
    coaddition driver building a new Spectra object;
  * the band-merging midpoint stitch of `create_model`
    (plotframes.py, lines 88-107);
  * the display-noise derivations of `make_cds_spectra` and
    `make_cds_coaddcam_spec` (plotframes.py, lines 140-147 and 159-167),
    over the reals since they take a square root.

2D numpy arrays are lists of rows; vectorized numpy expressions are read
per wavelength sample `j`, with `List.getD j 0` as sample access.
-/

namespace Prospect

/-- Per-sample column sum over exposure rows: `Σ_i rows[i][j]`.
Embeds the accumulation loops `unweightedflux += flux[i]` and
`weights += ivar[i]` of `_coadd`, read at sample `j`. -/
def colSum (rows : List (List ℚ)) (j : ℕ) : ℚ :=
  (rows.map (fun r => r.getD j 0)).sum

/-- Per-sample sum `Σ_i a[i][j] * b[i][j]`; embeds `weightedflux += flux[i]*ivar[i]`
of `_coadd`, read at sample `j`. -/
def colSumMul (a b : List (List ℚ)) (j : ℕ) : ℚ :=
  ((a.zip b).map (fun p => p.1.getD j 0 * p.2.getD j 0)).sum

/-- Per-sample sum `Σ_i rdat[i][d][j] * ivar[i][j]`; embeds
`outrdat += rdat[i] * ivar[i]` of `_coadd`, read at diagonal `d`, sample `j`. -/
def rdatColSum (rdat : List (List (List ℚ))) (ivar : List (List ℚ)) (d j : ℕ) : ℚ :=
  ((rdat.zip ivar).map (fun p => (p.1.getD d []).getD j 0 * p.2.getD j 0)).sum

/-- The tuple `(wave, outflux, outivar, outrdat)` returned by `_coadd`. -/
structure CoaddResult where
  wave : List ℚ
  flux : List ℚ
  ivar : List ℚ
  rdat : List (List ℚ)
deriving DecidableEq, Repr

/-- Shallow embedding of `_coadd(wave, flux, ivar, rdat)`
(utils_specviewer.py, lines 361-394).

Source, per wavelength sample `j`:
  `isbad = (weights == 0)`;
  `outflux = weightedflux / (weights + isbad)` then
  `outflux[isbad] = unweightedflux[isbad] / nspec`
  — so `outflux[j]` is `weighted/weights` when `weights[j] ≠ 0`
  and `unweighted/nspec` when `weights[j] == 0`;
  `outrdat /= (weights + isbad)` (no overwrite at bad samples);
  `outivar = weights`.
`nspec, nwave = flux.shape`; `outrdat` has shape `rdat[0].shape`. -/
def coadd (wave : List ℚ) (flux ivar : List (List ℚ))
    (rdat : List (List (List ℚ))) : CoaddResult :=
  let nspec := flux.length
  let nwave := (flux.headD []).length
  let weights := fun j => colSum ivar j
  let ndiag := (rdat.headD []).length
  { wave := wave
    flux := (List.range nwave).map fun j =>
      if weights j = 0 then colSum flux j / (nspec : ℚ)
      else colSumMul flux ivar j / weights j
    ivar := (List.range nwave).map fun j => weights j
    rdat := (List.range ndiag).map fun d =>
      (List.range nwave).map fun j =>
        rdatColSum rdat ivar d j / (weights j + (if weights j = 0 then 1 else 0)) }

theorem getD_range_map {α : Type} (f : ℕ → α) (n j : ℕ) (d : α) (hj : j < n) :
    ((List.range n).map f).getD j d = f j := by
  rw [List.getD_eq_getElem?_getD]
  simp [List.getElem?_range hj]

/-- Sample `j` of the coadded flux, as the two-branch formula of `_coadd`. -/
theorem coadd_flux_getD (wave : List ℚ) (flux ivar : List (List ℚ))
    (rdat : List (List (List ℚ))) (j : ℕ) (hj : j < (flux.headD []).length) :
    (coadd wave flux ivar rdat).flux.getD j 0 =
      if colSum ivar j = 0 then colSum flux j / (flux.length : ℚ)
      else colSumMul flux ivar j / colSum ivar j := by
  simp only [coadd]
  exact getD_range_map _ _ _ _ hj

/-- Sample `j` of the coadded inverse variance. -/
theorem coadd_ivar_getD (wave : List ℚ) (flux ivar : List (List ℚ))
    (rdat : List (List (List ℚ))) (j : ℕ) (hj : j < (flux.headD []).length) :
    (coadd wave flux ivar rdat).ivar.getD j 0 = colSum ivar j := by
  simp only [coadd]
  exact getD_range_map _ _ _ _ hj

theorem colSum_const (ivar : List (List ℚ)) (j : ℕ) (v : ℚ)
    (h : ∀ r ∈ ivar, r.getD j 0 = v) : colSum ivar j = ivar.length * v := by
  induction ivar with
  | nil => simp [colSum]
  | cons r rs ih =>
      have hr : r.getD j 0 = v := h r (List.mem_cons_self r rs)
      have hstep : colSum (r :: rs) j = r.getD j 0 + colSum rs j := by
        simp [colSum]
      rw [hstep, hr, ih (fun x hx => h x (List.mem_cons_of_mem r hx))]
      push_cast [List.length_cons]
      ring

theorem colSumMul_const_right (flux ivar : List (List ℚ)) (j : ℕ) (v : ℚ)
    (hlen : ivar.length = flux.length) (h : ∀ r ∈ ivar, r.getD j 0 = v) :
    colSumMul flux ivar j = v * colSum flux j := by
  induction flux generalizing ivar with
  | nil =>
      cases ivar with
      | nil => simp [colSumMul, colSum]
      | cons r rs => simp at hlen
  | cons f fs ih =>
      cases ivar with
      | nil => simp at hlen
      | cons r rs =>
          have hr : r.getD j 0 = v := h r (List.mem_cons_self r rs)
          have h1 : colSumMul (f :: fs) (r :: rs) j =
              f.getD j 0 * r.getD j 0 + colSumMul fs rs j := by
            simp [colSumMul]
          have h2 : colSum (f :: fs) j = f.getD j 0 + colSum fs j := by
            simp [colSum]
          rw [h1, h2, hr, ih rs (by simpa using hlen)
            (fun x hx => h x (List.mem_cons_of_mem r hx))]
          ring

/-- C1: with `weight j = Σ_i ivar[i][j]`, the coadded flux at sample `j` is the
inverse-variance-weighted mean `Σ_i flux[i][j]*ivar[i][j] / weight j` whenever
`weight j > 0`, and the plain mean `Σ_i flux[i][j] / nspec` whenever
`weight j = 0` (the division-by-zero fallback); on the concrete input
wave=[1,2,3], flux=[[10,20,30],[12,18,32]], ivar all ones, the coadded flux
is [11,19,31]. -/
theorem coadd_flux_weighted_mean (wave : List ℚ) (flux ivar : List (List ℚ))
    (rdat : List (List (List ℚ))) (j : ℕ) (hn : 1 ≤ flux.length)
    (hj : j < (flux.headD []).length) :
    (0 < (ivar.map (fun r => r.getD j 0)).sum →
        (coadd wave flux ivar rdat).flux.getD j 0 =
          ((flux.zip ivar).map (fun p => p.1.getD j 0 * p.2.getD j 0)).sum /
            (ivar.map (fun r => r.getD j 0)).sum) ∧
    ((ivar.map (fun r => r.getD j 0)).sum = 0 →
        (coadd wave flux ivar rdat).flux.getD j 0 =
          (flux.map (fun r => r.getD j 0)).sum / (flux.length : ℚ)) ∧
    (coadd [1, 2, 3] [[10, 20, 30], [12, 18, 32]] [[1, 1, 1], [1, 1, 1]]
        [[[1, 1, 1]], [[1, 1, 1]]]).flux = [11, 19, 31] := by
  refine ⟨?_, ?_, ?_⟩
  · intro hpos
    rw [coadd_flux_getD wave flux ivar rdat j hj,
      if_neg (show ¬colSum ivar j = 0 from ne_of_gt hpos)]
    rfl
  · intro h0
    rw [coadd_flux_getD wave flux ivar rdat j hj,
      if_pos (show colSum ivar j = 0 from h0)]
    rfl
  · norm_num [coadd, colSum, colSumMul, List.range_succ]

theorem coadd_flux_weighted_mean_witness :
    1 ≤ ([[10, 20, 30], [12, 18, 32]] : List (List ℚ)).length ∧
    (0 : ℕ) < (([[10, 20, 30], [12, 18, 32]] : List (List ℚ)).headD []).length ∧
    (0 : ℚ) < (([[1, 1, 1], [1, 1, 1]] : List (List ℚ)).map (fun r => r.getD 0 0)).sum ∧
    (coadd [1, 2, 3] [[10, 20, 30], [12, 18, 32]] [[1, 1, 1], [1, 1, 1]]
        [[[1, 1, 1]], [[1, 1, 1]]]).flux.getD 0 0 =
      ((([[10, 20, 30], [12, 18, 32]] : List (List ℚ)).zip
          ([[1, 1, 1], [1, 1, 1]] : List (List ℚ))).map
        (fun p => p.1.getD 0 0 * p.2.getD 0 0)).sum /
        (([[1, 1, 1], [1, 1, 1]] : List (List ℚ)).map (fun r => r.getD 0 0)).sum :=
  ⟨by norm_num, by norm_num, by norm_num,
    (coadd_flux_weighted_mean [1, 2, 3] [[10, 20, 30], [12, 18, 32]]
        [[1, 1, 1], [1, 1, 1]] [[[1, 1, 1]], [[1, 1, 1]]] 0
        (by norm_num) (by norm_num)).1 (by norm_num)⟩

/-- C2: the coadded inverse variance at sample `j` equals the sum of the
per-exposure inverse variances there, and when every exposure has zero
inverse variance at `j` it is exactly zero. -/
theorem coadd_ivar_sum (wave : List ℚ) (flux ivar : List (List ℚ))
    (rdat : List (List (List ℚ))) (j : ℕ) (hj : j < (flux.headD []).length) :
    ((coadd wave flux ivar rdat).ivar.getD j 0 =
        (ivar.map (fun r => r.getD j 0)).sum) ∧
    ((∀ r ∈ ivar, r.getD j 0 = 0) →
        (coadd wave flux ivar rdat).ivar.getD j 0 = 0) := by
  refine ⟨coadd_ivar_getD wave flux ivar rdat j hj, fun hz => ?_⟩
  rw [coadd_ivar_getD wave flux ivar rdat j hj, colSum_const ivar j 0 hz]
  ring

theorem coadd_ivar_sum_witness :
    (0 : ℕ) < (([[10, 20, 30], [12, 18, 32]] : List (List ℚ)).headD []).length ∧
    (coadd [1, 2, 3] [[10, 20, 30], [12, 18, 32]] [[1, 1, 1], [1, 1, 1]]
        [[[1, 1, 1]], [[1, 1, 1]]]).ivar.getD 0 0 =
      (([[1, 1, 1], [1, 1, 1]] : List (List ℚ)).map (fun r => r.getD 0 0)).sum :=
  ⟨by norm_num,
    (coadd_ivar_sum [1, 2, 3] [[10, 20, 30], [12, 18, 32]] [[1, 1, 1], [1, 1, 1]]
        [[[1, 1, 1]], [[1, 1, 1]]] 0 (by norm_num)).1⟩

/-- C7: when every exposure carries the same inverse variance `v ≥ 0` at
sample `j`, the coadded flux at `j` is the unweighted arithmetic mean of the
per-exposure fluxes at `j`. -/
theorem coadd_flux_equal_ivar_mean (wave : List ℚ) (flux ivar : List (List ℚ))
    (rdat : List (List (List ℚ))) (j : ℕ) (v : ℚ) (hv : 0 ≤ v)
    (hlen : ivar.length = flux.length)
    (hall : ∀ r ∈ ivar, r.getD j 0 = v) (hj : j < (flux.headD []).length) :
    (coadd wave flux ivar rdat).flux.getD j 0 =
      (flux.map (fun r => r.getD j 0)).sum / (flux.length : ℚ) := by
  rw [coadd_flux_getD wave flux ivar rdat j hj]
  rcases eq_or_ne (colSum ivar j) 0 with h0 | hne
  · rw [if_pos h0]
    rfl
  · rw [if_neg hne, colSumMul_const_right flux ivar j v hlen hall,
      colSum_const ivar j v hall, hlen]
    have hv' : v ≠ 0 := by
      rintro rfl
      exact hne (by rw [colSum_const ivar j 0 hall]; ring)
    rw [mul_comm v (colSum flux j), mul_div_mul_right _ _ hv']
    rfl

theorem coadd_flux_equal_ivar_mean_witness :
    (0 : ℚ) ≤ 2 ∧
    (([[2], [2]] : List (List ℚ)).length = ([[4], [8]] : List (List ℚ)).length) ∧
    (0 : ℕ) < (([[4], [8]] : List (List ℚ)).headD []).length ∧
    (coadd [1] [[4], [8]] [[2], [2]] [[[0]], [[0]]]).flux.getD 0 0 =
      (([[4], [8]] : List (List ℚ)).map (fun r => r.getD 0 0)).sum /
        (([[4], [8]] : List (List ℚ)).length : ℚ) :=
  ⟨by norm_num, by norm_num, by norm_num,
    coadd_flux_equal_ivar_mean [1] [[4], [8]] [[2], [2]] [[[0]], [[0]]] 0 2
      (by norm_num) (by norm_num)
      (by
        intro r hr
        simp only [List.mem_cons, List.not_mem_nil, or_false] at hr
        rcases hr with rfl | rfl <;> rfl)
      (by norm_num)⟩

theorem getD_eq_getElem' {α : Type} (l : List α) (d : α) {i : ℕ}
    (h : i < l.length) : l.getD i d = l[i] := by
  rw [List.getD_eq_getElem?_getD, List.getElem?_eq_getElem h]
  rfl

/-- The `len(ii) == 1` pass-through branch of `coadd_targets`
(utils_specviewer.py, lines 453-459): the single exposure's arrays are
returned as-is, with no recomputation. -/
def passOne (wave f v : List ℚ) (r : List (List ℚ)) : CoaddResult :=
  { wave := wave, flux := f, ivar := v, rdat := r }

/-- C3 counterexample: on a single exposure whose inverse variance is zero at
a sample, `_coadd` returns zero resolution data there while the pass-through
branch keeps the input resolution value, so the two disagree. -/
theorem coadd_single_passthrough_cex :
    (coadd [0] [[5]] [[0]] [[[7]]]).rdat ≠ (passOne [0] [5] [0] [[7]]).rdat := by
  norm_num [coadd, passOne, rdatColSum, colSum, List.range_succ]

/-- C3 (amended): for a single exposure the pass-through branch returns the
input tuple unchanged, and the general `_coadd` formula agrees with it on
wave, flux and inverse variance everywhere; the resolution data agrees at
every sample where the exposure's inverse variance is nonzero (at zero-ivar
samples `_coadd` yields 0 while the pass-through keeps the input value). -/
theorem coadd_single_passthrough (wave f v : List ℚ) (r : List (List ℚ))
    (hv : v.length = f.length) :
    passOne wave f v r = ⟨wave, f, v, r⟩ ∧
    (coadd wave [f] [v] [r]).wave = wave ∧
    (coadd wave [f] [v] [r]).flux = f ∧
    (coadd wave [f] [v] [r]).ivar = v ∧
    (∀ d j, j < f.length → v.getD j 0 ≠ 0 →
      ((coadd wave [f] [v] [r]).rdat.getD d []).getD j 0 =
        (r.getD d []).getD j 0) := by
  have hcolv : ∀ j, colSum [v] j = v.getD j 0 := by
    intro j; simp [colSum]
  have hcolf : ∀ j, colSum [f] j = f.getD j 0 := by
    intro j; simp [colSum]
  have hcolm : ∀ j, colSumMul [f] [v] j = f.getD j 0 * v.getD j 0 := by
    intro j; simp [colSumMul]
  refine ⟨rfl, rfl, ?_, ?_, ?_⟩
  · have hlen : (coadd wave [f] [v] [r]).flux.length = f.length := by
      simp [coadd]
    apply List.ext_getElem hlen
    intro i h1 h2
    have hstep : (coadd wave [f] [v] [r]).flux[i] =
        if colSum [v] i = 0 then colSum [f] i / ((1 : ℕ) : ℚ)
        else colSumMul [f] [v] i / colSum [v] i := by
      simp [coadd]
    rw [hstep, hcolv, hcolf, hcolm]
    rcases eq_or_ne (v.getD i 0) 0 with h0 | hne
    · rw [if_pos h0, ← getD_eq_getElem' f 0 h2]
      norm_num
    · rw [if_neg hne, mul_div_cancel_right₀ _ hne, ← getD_eq_getElem' f 0 h2]
  · have hlen : (coadd wave [f] [v] [r]).ivar.length = v.length := by
      simp [coadd, hv]
    apply List.ext_getElem hlen
    intro i h1 h2
    have hstep : (coadd wave [f] [v] [r]).ivar[i] = colSum [v] i := by
      simp [coadd]
    rw [hstep, hcolv, getD_eq_getElem' v 0 h2]
  · intro d j hj hvj
    rcases lt_or_le d r.length with hd | hd
    · have houter : (coadd wave [f] [v] [r]).rdat.getD d [] =
          (List.range f.length).map (fun j =>
            rdatColSum [r] [v] d j /
              (colSum [v] j + (if colSum [v] j = 0 then 1 else 0))) := by
        simp only [coadd]
        exact getD_range_map _ _ _ _ (by simpa using hd)
      rw [houter, getD_range_map _ _ _ _ hj, hcolv, if_neg hvj]
      have hr : rdatColSum [r] [v] d j = (r.getD d []).getD j 0 * v.getD j 0 := by
        simp [rdatColSum]
      rw [hr, add_zero, mul_div_cancel_right₀ _ hvj]
    · have houter : (coadd wave [f] [v] [r]).rdat.getD d [] = [] := by
        apply List.getD_eq_default
        simpa [coadd] using hd
      rw [houter, List.getD_eq_default r [] hd]

theorem coadd_single_passthrough_witness :
    ([2] : List ℚ).length = ([5] : List ℚ).length ∧
    (coadd [0] [[5]] [[2]] [[[7]]]).flux = [5] ∧
    (coadd [0] [[5]] [[2]] [[[7]]]).ivar = [2] :=
  ⟨rfl, (coadd_single_passthrough [0] [5] [2] [[7]] rfl).2.2.1,
    (coadd_single_passthrough [0] [5] [2] [[7]] rfl).2.2.2.1⟩

/-- Midpoint between the last sample of the bluer band and the first sample
of the redder band: `0.5*(wa[-1] + wb[0])` (plotframes.py, lines 89-90). -/
def split (wa wb : List ℚ) : ℚ := (wa.getLastD 0 + wb.headD 0) / 2

/-- Merged wavelength grid of `create_model` (plotframes.py, lines 88-99):
`keep['b'] = wave_b < br_split`, `keep['r'] = br_split ≤ wave_r < rz_split`,
`keep['z'] = rz_split ≤ wave_z`, retained slices concatenated in b, r, z
order. Boolean-mask indexing of a 1D array is `List.filter`. -/
def modelWave (wb wr wz : List ℚ) : List ℚ :=
  let br := split wb wr
  let rz := split wr wz
  wb.filter (fun x => decide (x < br)) ++
    wr.filter (fun x => decide (br ≤ x ∧ x < rz)) ++
    wz.filter (fun x => decide (rz ≤ x))

/-- One row of the merged model flux (plotframes.py, lines 101-105): each
band's flux columns are selected by the same keep mask as its wave array
(index alignment modelled by zipping wave with flux) and concatenated. -/
def modelFluxRow (wb wr wz fb fr fz : List ℚ) : List ℚ :=
  let br := split wb wr
  let rz := split wr wz
  ((wb.zip fb).filter (fun p => decide (p.1 < br))).map Prod.snd ++
    ((wr.zip fr).filter (fun p => decide (br ≤ p.1 ∧ p.1 < rz))).map Prod.snd ++
    ((wz.zip fz).filter (fun p => decide (rz ≤ p.1))).map Prod.snd

/-- C4 counterexample: for b=[0,1,2,3], r=[5,6,7,8] the b/r midpoint computed
by `create_model` is `0.5*(3+5) = 4`, not `4.5` as the claim states. -/
theorem model_wave_stitch_cex :
    split [0, 1, 2, 3] [5, 6, 7, 8] ≠ 4.5 := by
  norm_num [split]

/-- C4 (amended): the stitched grid is exactly the b samples strictly below
the b/r midpoint, then the r samples in the half-open interval between the
two midpoints, then the z samples at or above the r/z midpoint (each
retained slice characterized by membership), with flux kept in step;
concretely for b=[0,1,2,3], r=[5,6,7,8] the midpoint is 4 (not 4.5) and the
merged grid carries [0,1,2,3,5,6,7,8] in order, flux values in order. -/
theorem model_wave_stitch (wb wr wz : List ℚ) :
    (modelWave wb wr wz =
        wb.filter (fun x => decide (x < (wb.getLastD 0 + wr.headD 0) / 2)) ++
          wr.filter (fun x => decide ((wb.getLastD 0 + wr.headD 0) / 2 ≤ x ∧
            x < (wr.getLastD 0 + wz.headD 0) / 2)) ++
          wz.filter (fun x => decide ((wr.getLastD 0 + wz.headD 0) / 2 ≤ x))) ∧
    (∀ x : ℚ,
        x ∈ wb.filter (fun x => decide (x < (wb.getLastD 0 + wr.headD 0) / 2)) ↔
          x ∈ wb ∧ x < (wb.getLastD 0 + wr.headD 0) / 2) ∧
    (∀ x : ℚ,
        x ∈ wr.filter (fun x => decide ((wb.getLastD 0 + wr.headD 0) / 2 ≤ x ∧
            x < (wr.getLastD 0 + wz.headD 0) / 2)) ↔
          x ∈ wr ∧ ((wb.getLastD 0 + wr.headD 0) / 2 ≤ x ∧
            x < (wr.getLastD 0 + wz.headD 0) / 2)) ∧
    (∀ x : ℚ,
        x ∈ wz.filter (fun x => decide ((wr.getLastD 0 + wz.headD 0) / 2 ≤ x)) ↔
          x ∈ wz ∧ (wr.getLastD 0 + wz.headD 0) / 2 ≤ x) ∧
    split [0, 1, 2, 3] [5, 6, 7, 8] = 4 ∧
    modelWave [0, 1, 2, 3] [5, 6, 7, 8] [9, 10] =
      [0, 1, 2, 3, 5, 6, 7, 8, 9, 10] ∧
    modelFluxRow [0, 1, 2, 3] [5, 6, 7, 8] [9, 10]
        [20, 21, 22, 23] [25, 26, 27, 28] [29, 30] =
      [20, 21, 22, 23, 25, 26, 27, 28, 29, 30] := by
  refine ⟨rfl, ?_, ?_, ?_, ?_, ?_, ?_⟩
  · intro x; simp [List.mem_filter]
  · intro x; simp [List.mem_filter]
  · intro x; simp [List.mem_filter]
  · norm_num [split]
  · norm_num [modelWave, split, List.filter_cons]
  · norm_num [modelFluxRow, split, List.filter_cons]

/-- C5: if each band grid is strictly increasing and the bands are spectrally
ordered (b's last sample at or below r's, r's first sample at or below z's —
overlap only at the edges), the stitched grid is strictly increasing, has no
duplicate samples at the midpoint cuts, and its length is the sum of the
lengths of the three retained slices. -/
theorem model_wave_sorted (wb wr wz : List ℚ)
    (hb : wb.Sorted (· < ·)) (hr : wr.Sorted (· < ·)) (hz : wz.Sorted (· < ·))
    (hbr : wb.getLastD 0 ≤ wr.getLastD 0) (hrz : wr.headD 0 ≤ wz.headD 0) :
    (modelWave wb wr wz).Sorted (· < ·) ∧
    (modelWave wb wr wz).Nodup ∧
    (modelWave wb wr wz).length =
      (wb.filter (fun x => decide (x < split wb wr))).length +
        (wr.filter (fun x => decide (split wb wr ≤ x ∧ x < split wr wz))).length +
        (wz.filter (fun x => decide (split wr wz ≤ x))).length := by
  have hsplit : split wb wr ≤ split wr wz := by
    simp only [split]
    linarith
  have hsorted : (modelWave wb wr wz).Sorted (· < ·) := by
    simp only [modelWave, List.Sorted, List.pairwise_append]
    refine ⟨⟨hb.filter _, hr.filter _, ?_⟩, hz.filter _, ?_⟩
    · intro a ha c hc
      have ha' := of_decide_eq_true (List.mem_filter.mp ha).2
      have hc' := of_decide_eq_true (List.mem_filter.mp hc).2
      exact lt_of_lt_of_le ha' hc'.1
    · intro a ha c hc
      have hc' := of_decide_eq_true (List.mem_filter.mp hc).2
      rcases List.mem_append.mp ha with hab | har
      · have ha' := of_decide_eq_true (List.mem_filter.mp hab).2
        exact lt_of_lt_of_le ha' (le_trans hsplit hc')
      · have ha' := of_decide_eq_true (List.mem_filter.mp har).2
        exact lt_of_lt_of_le ha'.2 hc'
  refine ⟨hsorted, hsorted.nodup, ?_⟩
  simp only [modelWave, List.length_append]

theorem model_wave_sorted_witness :
    ([0, 1] : List ℚ).Sorted (· < ·) ∧ ([1, 2] : List ℚ).Sorted (· < ·) ∧
    ([2, 3] : List ℚ).Sorted (· < ·) ∧
    ([0, 1] : List ℚ).getLastD 0 ≤ ([1, 2] : List ℚ).getLastD 0 ∧
    ([1, 2] : List ℚ).headD 0 ≤ ([2, 3] : List ℚ).headD 0 ∧
    (modelWave [0, 1] [1, 2] [2, 3]).Sorted (· < ·) ∧
    (modelWave [0, 1] [1, 2] [2, 3]).Nodup :=
  ⟨by norm_num [List.sorted_cons], by norm_num [List.sorted_cons],
    by norm_num [List.sorted_cons], by norm_num, by norm_num,
    (model_wave_sorted [0, 1] [1, 2] [2, 3] (by norm_num [List.sorted_cons])
      (by norm_num [List.sorted_cons]) (by norm_num [List.sorted_cons])
      (by norm_num) (by norm_num)).1,
    (model_wave_sorted [0, 1] [1, 2] [2, 3] (by norm_num [List.sorted_cons])
      (by norm_num [List.sorted_cons]) (by norm_num [List.sorted_cons])
      (by norm_num) (by norm_num)).2.1⟩

/-- One band's raw per-exposure arrays of a Spectra object. -/
structure Band where
  wave : List ℚ
  flux : List (List ℚ)
  ivar : List (List ℚ)
  rdat : List (List (List ℚ))
deriving DecidableEq, Repr

/-- A Spectra object as `coadd_targets` consumes it: a fibermap (each row
modelled as its TARGETID plus one opaque token standing for the remaining
columns) and a list of bands. -/
structure Spectra where
  fibermap : List (ℤ × ℕ)
  bands : List Band
deriving DecidableEq, Repr

/-- Unique elements in first-appearance order. -/
def firstUnique (l : List ℤ) : List ℤ :=
  l.foldl (fun acc x => if x ∈ acc then acc else acc ++ [x]) []

/-- Models the external collaborator `desispec.spectra.Spectra.target_ids`:
the unique TARGETIDs of the fibermap, ordered by first appearance. -/
def targetIds (s : Spectra) : List ℤ := firstUnique (s.fibermap.map Prod.fst)

/-- Models `desispec.spectra.Spectra.num_targets`: the number of unique
TARGETIDs in the fibermap. -/
def numTargets (s : Spectra) : ℕ := (targetIds s).length

/-- `ii = np.where(spectra.fibermap['TARGETID'] == targetid)[0]`
(utils_specviewer.py, line 439): matching row indices in increasing order. -/
def rowIndices (fibermap : List (ℤ × ℕ)) (tid : ℤ) : List ℕ :=
  (fibermap.enum.filter (fun p => decide (p.2.1 = tid))).map Prod.fst

/-- Per-target, per-band combination (utils_specviewer.py, lines 441-459):
the ii-selected rows go through `_coadd` when there are at least two,
otherwise the single selected row is passed through unchanged. -/
def coaddOne (band : Band) (ii : List ℕ) : CoaddResult :=
  if 1 < ii.length then
    coadd band.wave (ii.map fun k => band.flux.getD k [])
      (ii.map fun k => band.ivar.getD k [])
      (ii.map fun k => band.rdat.getD k [])
  else
    { wave := band.wave
      flux := band.flux.getD (ii.headD 0) []
      ivar := band.ivar.getD (ii.headD 0) []
      rdat := band.rdat.getD (ii.headD 0) [] }

/-- `np.zeros(n)` row of an output array. -/
def zerosRow (n : ℕ) : List ℚ := List.replicate n 0

/-- Output allocation and fill (utils_specviewer.py, lines 429-430, 463-464):
`ntargets` zero rows are allocated, row `i` then overwritten with the i-th
computed row for every `i` below the number of requested targets. -/
def fillRows (ntargets : ℕ) (computed : List (List ℚ)) (nwave : ℕ) :
    List (List ℚ) :=
  (List.range ntargets).map fun i =>
    if i < computed.length then computed.getD i [] else zerosRow nwave

/-- Same for the 3D resolution array (lines 432, 465). -/
def fillRows3 (ntargets : ℕ) (computed : List (List (List ℚ)))
    (ndiag nwave : ℕ) : List (List (List ℚ)) :=
  (List.range ntargets).map fun i =>
    if i < computed.length then computed.getD i []
    else List.replicate ndiag (zerosRow nwave)

/-- Shallow embedding of `coadd_targets(spectra, targetids)`
(utils_specviewer.py, lines 396-471), for shape-consistent inputs.
Fallibility is modelled with `Option`: the result is `none` exactly when the
Python code raises — `ii[0]` on an empty match (line 440, a requested target
with zero matching rows) or the row write `flux[channel][i] = outflux` with
`i ≥ ntargets` (line 463, more requested targets than the
`spectra.num_targets()` allocated rows; only reachable when a band exists).
When no target list is passed it defaults to `spectra.target_ids()`. -/
def coaddTargets (s : Spectra) (tids? : Option (List ℤ)) : Option Spectra :=
  let targetids := tids?.getD (targetIds s)
  if (∀ t ∈ targetids, rowIndices s.fibermap t ≠ []) ∧
      (s.bands = [] ∨ targetids.length ≤ numTargets s) then
    some
      { fibermap := targetids.map fun t =>
          s.fibermap.getD ((rowIndices s.fibermap t).headD 0) (0, 0)
        bands := s.bands.map fun band =>
          let results := targetids.map fun t =>
            coaddOne band (rowIndices s.fibermap t)
          { wave := band.wave
            flux := fillRows (numTargets s) (results.map CoaddResult.flux)
              band.wave.length
            ivar := fillRows (numTargets s) (results.map CoaddResult.ivar)
              band.wave.length
            rdat := fillRows3 (numTargets s) (results.map CoaddResult.rdat)
              (band.rdat.headD []).length band.wave.length } }
  else none

/-- C6 counterexample: requesting target id 2 against a fibermap whose only
row has TARGETID 1 does not produce a typed empty result: `coadd_targets`
fails (the `ii[0]` lookup on the empty match raises an untyped IndexError,
modelled as `none`). -/
theorem coadd_targets_empty_selection_cex :
    coaddTargets ⟨[(1, 0)], [⟨[1], [[2]], [[1]], [[[1]]]⟩]⟩ (some [2]) =
      none := by
  rfl

/-- C6 (amended): whenever some requested target matches zero fibermap rows,
`coadd_targets` crashes with an untyped indexing error (`ii[0]` on an empty
array, modelled as `none`); it does not report a typed empty result. -/
theorem coadd_targets_empty_selection (s : Spectra) (tids : List ℤ) (t : ℤ)
    (ht : t ∈ tids) (hempty : rowIndices s.fibermap t = []) :
    coaddTargets s (some tids) = none := by
  simp only [coaddTargets, Option.getD_some]
  rw [if_neg]
  rintro ⟨hall, -⟩
  exact hall t ht hempty

theorem coadd_targets_empty_selection_witness :
    (2 : ℤ) ∈ ([2] : List ℤ) ∧
    rowIndices [((1 : ℤ), (0 : ℕ))] 2 = [] ∧
    coaddTargets ⟨[(1, 0)], [⟨[1], [[2]], [[1]], [[[1]]]⟩]⟩ (some [2]) =
      none :=
  ⟨List.mem_singleton.mpr rfl, rfl,
    coadd_targets_empty_selection ⟨[(1, 0)], [⟨[1], [[2]], [[1]], [[[1]]]⟩]⟩
      [2] 2 (List.mem_singleton.mpr rfl) rfl⟩

/-- C8: coaddition never changes a band's wavelength grid: `_coadd` returns
its wave argument unchanged, and every band of a successful `coadd_targets`
output carries the same wave array as the corresponding input band (in the
source each output value is written into freshly allocated arrays —
`np.zeros` plus `wave.copy()` — so inputs are never mutated; in this pure
embedding that frame condition is value-level equality). -/
theorem coadd_preserves_wave (wave : List ℚ) (flux ivar : List (List ℚ))
    (rdat : List (List (List ℚ))) (s : Spectra) (tids? : Option (List ℤ))
    (out : Spectra) (hout : coaddTargets s tids? = some out) :
    (coadd wave flux ivar rdat).wave = wave ∧
    out.bands.map Band.wave = s.bands.map Band.wave := by
  refine ⟨rfl, ?_⟩
  simp only [coaddTargets] at hout
  by_cases hc : (∀ t ∈ tids?.getD (targetIds s), rowIndices s.fibermap t ≠ []) ∧
      (s.bands = [] ∨ (tids?.getD (targetIds s)).length ≤ numTargets s)
  · rw [if_pos hc] at hout
    obtain rfl := (Option.some.inj hout).symm
    simp only [List.map_map]
    rfl
  · rw [if_neg hc] at hout
    exact absurd hout (by simp)

theorem coadd_preserves_wave_witness :
    coaddTargets ⟨[(1, 0)], [⟨[1], [[2]], [[1]], [[[1]]]⟩]⟩ none =
      some ⟨[(1, 0)], [⟨[1], [[2]], [[1]], [[[1]]]⟩]⟩ ∧
    (coadd [1, 2] [[3, 4]] [[1, 1]] [[[1, 1]]]).wave = [1, 2] ∧
    (⟨[(1, 0)], [⟨[1], [[2]], [[1]], [[[1]]]⟩]⟩ : Spectra).bands.map Band.wave =
      (⟨[(1, 0)], [⟨[1], [[2]], [[1]], [[[1]]]⟩]⟩ : Spectra).bands.map Band.wave :=
  ⟨rfl,
    (coadd_preserves_wave [1, 2] [[3, 4]] [[1, 1]] [[[1, 1]]]
      ⟨[(1, 0)], [⟨[1], [[2]], [[1]], [[[1]]]⟩]⟩ none
      ⟨[(1, 0)], [⟨[1], [[2]], [[1]], [[[1]]]⟩]⟩ rfl).1,
    (coadd_preserves_wave [1, 2] [[3, 4]] [[1, 1]] [[[1, 1]]]
      ⟨[(1, 0)], [⟨[1], [[2]], [[1]], [[[1]]]⟩]⟩ none
      ⟨[(1, 0)], [⟨[1], [[2]], [[1]], [[[1]]]⟩]⟩ rfl).2⟩

/-- Inversion of a successful `coaddTargets` call on an explicit target list. -/
theorem coaddTargets_some_inv (s : Spectra) (tids : List ℤ) (out : Spectra)
    (hout : coaddTargets s (some tids) = some out) :
    (∀ t ∈ tids, rowIndices s.fibermap t ≠ []) ∧
    (s.bands = [] ∨ tids.length ≤ numTargets s) ∧
    out = ⟨tids.map fun t =>
        s.fibermap.getD ((rowIndices s.fibermap t).headD 0) (0, 0),
      s.bands.map fun band =>
        ⟨band.wave,
          fillRows (numTargets s) ((tids.map fun t =>
            coaddOne band (rowIndices s.fibermap t)).map CoaddResult.flux)
            band.wave.length,
          fillRows (numTargets s) ((tids.map fun t =>
            coaddOne band (rowIndices s.fibermap t)).map CoaddResult.ivar)
            band.wave.length,
          fillRows3 (numTargets s) ((tids.map fun t =>
            coaddOne band (rowIndices s.fibermap t)).map CoaddResult.rdat)
            (band.rdat.headD []).length band.wave.length⟩⟩ := by
  simp only [coaddTargets, Option.getD_some] at hout
  by_cases hc : (∀ t ∈ tids, rowIndices s.fibermap t ≠ []) ∧
      (s.bands = [] ∨ tids.length ≤ numTargets s)
  · rw [if_pos hc] at hout
    exact ⟨hc.1, hc.2, (Option.some.inj hout).symm⟩
  · rw [if_neg hc] at hout
    exact absurd hout (by simp)

theorem getD_map_lt {α β : Type} (f : α → β) (l : List α) (d : β) {i : ℕ}
    (h : i < l.length) : (l.map f).getD i d = f l[i] := by
  rw [List.getD_eq_getElem?_getD, List.getElem?_map, List.getElem?_eq_getElem h]
  rfl

/-- C10 counterexample: with two targets in the fibermap but only target 1
requested, `coadd_targets` succeeds yet returns band arrays with
`spectra.num_targets() = 2` rows (the second all zeros) while the returned
fibermap has 1 row, so the band row count does not equal the fibermap row
count. -/
theorem coadd_targets_rows_cex :
    coaddTargets ⟨[(1, 10), (2, 20)], [⟨[5], [[1], [2]], [[1], [1]],
        [[[1]], [[1]]]⟩]⟩ (some [1]) =
      some ⟨[(1, 10)], [⟨[5], [[1], [0]], [[1], [0]], [[[1]], [[0]]]⟩]⟩ ∧
    (⟨[(1, 10)], [⟨[5], [[1], [0]], [[1], [0]], [[[1]], [[0]]]⟩]⟩ :
        Spectra).fibermap.length = 1 ∧
    ((⟨[(1, 10)], [⟨[5], [[1], [0]], [[1], [0]], [[[1]], [[0]]]⟩]⟩ :
        Spectra).bands.getD 0 ⟨[], [], [], []⟩).flux.length = 2 := by
  refine ⟨?_, rfl, rfl⟩
  rfl

/-- C10 (amended): `coadd_targets` allocates `spectra.num_targets()` rows per
band, fills row `i` with the coadd of the i-th requested target for each
`i` below the number of requested targets, and returns a fibermap with one
row per requested target, copied from the first input row matching that
target; with no target list given the request defaults to all target ids,
in which case (and only in general for lists of that length) the band row
count equals the fibermap row count — a proper-subset request leaves extra
all-zero band rows, so the two counts then differ. -/
theorem coadd_targets_rows (s : Spectra) (tids : List ℤ) (out outd : Spectra)
    (hout : coaddTargets s (some tids) = some out)
    (houtd : coaddTargets s none = some outd) :
    coaddTargets s none = coaddTargets s (some (targetIds s)) ∧
    out.fibermap = (tids.map fun t =>
      s.fibermap.getD ((rowIndices s.fibermap t).headD 0) (0, 0)) ∧
    (∀ b ∈ out.bands, b.flux.length = numTargets s ∧
      b.ivar.length = numTargets s ∧ b.rdat.length = numTargets s) ∧
    outd.fibermap.length = numTargets s ∧
    (∀ b ∈ outd.bands, b.flux.length = numTargets s) ∧
    (∀ k i, k < s.bands.length → i < tids.length →
      (out.bands.getD k ⟨[], [], [], []⟩).flux.getD i [] =
        (coaddOne (s.bands.getD k ⟨[], [], [], []⟩)
          (rowIndices s.fibermap (tids.getD i 0))).flux ∧
      (out.bands.getD k ⟨[], [], [], []⟩).ivar.getD i [] =
        (coaddOne (s.bands.getD k ⟨[], [], [], []⟩)
          (rowIndices s.fibermap (tids.getD i 0))).ivar ∧
      (out.bands.getD k ⟨[], [], [], []⟩).rdat.getD i [] =
        (coaddOne (s.bands.getD k ⟨[], [], [], []⟩)
          (rowIndices s.fibermap (tids.getD i 0))).rdat) := by
  obtain ⟨hall, hor, rfl⟩ := coaddTargets_some_inv s tids out hout
  have houtd' : coaddTargets s (some (targetIds s)) = some outd := houtd
  obtain ⟨halld, -, rfl⟩ := coaddTargets_some_inv s (targetIds s) outd houtd'
  refine ⟨rfl, rfl, ?_, ?_, ?_, ?_⟩
  · intro b hb
    obtain ⟨a, ha, rfl⟩ := List.mem_map.mp hb
    exact ⟨by simp [fillRows], by simp [fillRows], by simp [fillRows3]⟩
  · simp [numTargets]
  · intro b hb
    obtain ⟨a, ha, rfl⟩ := List.mem_map.mp hb
    simp [fillRows]
  · intro k i hk hi
    have hbandsne : s.bands ≠ [] := by
      intro h
      rw [h] at hk
      exact absurd hk (by simp)
    have hle : tids.length ≤ numTargets s := hor.resolve_left hbandsne
    have hin : i < numTargets s := lt_of_lt_of_le hi hle
    have hgetk : ∀ (F : Band → Band),
        ((s.bands.map F).getD k ⟨[], [], [], []⟩) = F (s.bands[k]) := by
      intro F
      exact getD_map_lt F s.bands _ hk
    have hsk : s.bands.getD k ⟨[], [], [], []⟩ = s.bands[k] :=
      getD_eq_getElem' s.bands _ hk
    rw [hgetk, hsk]
    have hresults : ∀ (g : CoaddResult → List ℚ),
        (((tids.map fun t => coaddOne s.bands[k] (rowIndices s.fibermap t)).map
          g).getD i []) = g (coaddOne s.bands[k]
            (rowIndices s.fibermap (tids.getD i 0))) := by
      intro g
      rw [getD_map_lt g _ _ (by simpa using hi), List.getElem_map,
        getD_eq_getElem' tids 0 hi]
    have hresults3 :
        (((tids.map fun t => coaddOne s.bands[k] (rowIndices s.fibermap t)).map
          CoaddResult.rdat).getD i []) = CoaddResult.rdat (coaddOne s.bands[k]
            (rowIndices s.fibermap (tids.getD i 0))) := by
      rw [getD_map_lt CoaddResult.rdat _ _ (by simpa using hi), List.getElem_map,
        getD_eq_getElem' tids 0 hi]
    have hfill : ∀ (c : List (List ℚ)) (w : ℕ), i < c.length →
        (fillRows (numTargets s) c w).getD i [] = c.getD i [] := by
      intro c w hc
      rw [fillRows, getD_range_map _ _ _ _ hin, if_pos hc]
    have hfill3 : ∀ (c : List (List (List ℚ))) (nd w : ℕ), i < c.length →
        (fillRows3 (numTargets s) c nd w).getD i [] = c.getD i [] := by
      intro c nd w hc
      rw [fillRows3, getD_range_map _ _ _ _ hin, if_pos hc]
    refine ⟨?_, ?_, ?_⟩
    · rw [hfill _ _ (by simpa using hi), hresults CoaddResult.flux]
    · rw [hfill _ _ (by simpa using hi), hresults CoaddResult.ivar]
    · rw [hfill3 _ _ _ (by simpa using hi), hresults3]

theorem coadd_targets_rows_witness :
    coaddTargets ⟨[(1, 0)], [⟨[1], [[2]], [[1]], [[[1]]]⟩]⟩ (some [1]) =
      some ⟨[(1, 0)], [⟨[1], [[2]], [[1]], [[[1]]]⟩]⟩ ∧
    coaddTargets ⟨[(1, 0)], [⟨[1], [[2]], [[1]], [[[1]]]⟩]⟩ none =
      some ⟨[(1, 0)], [⟨[1], [[2]], [[1]], [[[1]]]⟩]⟩ ∧
    (⟨[(1, 0)], [⟨[1], [[2]], [[1]], [[[1]]]⟩]⟩ : Spectra).fibermap =
      (([1] : List ℤ).map fun t =>
        (⟨[(1, 0)], [⟨[1], [[2]], [[1]], [[[1]]]⟩]⟩ : Spectra).fibermap.getD
          ((rowIndices (⟨[(1, 0)], [⟨[1], [[2]], [[1]], [[[1]]]⟩]⟩ :
            Spectra).fibermap t).headD 0) (0, 0)) :=
  ⟨rfl, rfl,
    (coadd_targets_rows ⟨[(1, 0)], [⟨[1], [[2]], [[1]], [[[1]]]⟩]⟩ [1]
      ⟨[(1, 0)], [⟨[1], [[2]], [[1]], [[[1]]]⟩]⟩
      ⟨[(1, 0)], [⟨[1], [[2]], [[1]], [[[1]]]⟩]⟩ rfl rfl).2.1⟩

/-- Display-noise row of `make_cds_spectra` (plotframes.py, lines 140-145):
`noise = np.zeros(len(ivar))`, then `noise[w] = 1/np.sqrt(ivar[w])` at the
samples `w` where `ivar > 0` — so the sentinel at zero-ivar samples is 0.
Over the reals, since a square root is taken. -/
noncomputable def specNoiseRow (ivar : List ℝ) : List ℝ :=
  (List.range ivar.length).map fun j =>
    if 0 < ivar.getD j 0 then 1 / Real.sqrt (ivar.getD j 0) else 0

/-- Display-noise row of `make_cds_coaddcam_spec` (plotframes.py, lines
159-167): `plotnoise = np.ones(len(coadd_wave))`, then
`plotnoise[w] = 1/np.sqrt(coadd_ivar[0][w])` where `coadd_ivar[0] > 0` — so
the sentinel at zero-ivar samples is 1; `nwave` is the merged grid length. -/
noncomputable def coaddcamNoiseRow (ivar : List ℝ) (nwave : ℕ) : List ℝ :=
  (List.range nwave).map fun j =>
    if 0 < ivar.getD j 0 then 1 / Real.sqrt (ivar.getD j 0) else 1

/-- C9: wherever inverse variance is exposed for display with noise, the
derived noise equals `1/sqrt(ivar)` at every sample with `ivar > 0`, and at
every zero-ivar sample it equals a fixed finite sentinel (0 for the per-band
spectra source, 1 for the camera-coadd source) — never NaN, Inf or
undefined, the embedding being total over ℝ. -/
theorem display_noise_contract (ivar : List ℝ) (n j : ℕ)
    (hj : j < ivar.length) (hjn : j < n) :
    (0 < ivar.getD j 0 →
        (specNoiseRow ivar).getD j 0 = 1 / Real.sqrt (ivar.getD j 0) ∧
        (coaddcamNoiseRow ivar n).getD j 0 = 1 / Real.sqrt (ivar.getD j 0)) ∧
    (ivar.getD j 0 = 0 →
        (specNoiseRow ivar).getD j 0 = 0 ∧
        (coaddcamNoiseRow ivar n).getD j 0 = 1) := by
  constructor
  · intro hpos
    constructor
    · rw [specNoiseRow, getD_range_map _ _ _ _ hj, if_pos hpos]
    · rw [coaddcamNoiseRow, getD_range_map _ _ _ _ hjn, if_pos hpos]
  · intro h0
    have hneg : ¬0 < ivar.getD j 0 := by rw [h0]; exact lt_irrefl 0
    constructor
    · rw [specNoiseRow, getD_range_map _ _ _ _ hj, if_neg hneg]
    · rw [coaddcamNoiseRow, getD_range_map _ _ _ _ hjn, if_neg hneg]

theorem display_noise_contract_witness :
    (0 : ℕ) < ([4, 0] : List ℝ).length ∧ (0 : ℕ) < 2 ∧
    (0 : ℝ) < ([4, 0] : List ℝ).getD 0 0 ∧
    (specNoiseRow [4, 0]).getD 0 0 = 1 / 2 ∧
    (coaddcamNoiseRow [4, 0] 2).getD 0 0 = 1 / 2 := by
  have h4 : (([4, 0] : List ℝ)).getD 0 0 = 4 := rfl
  have hs : Real.sqrt 4 = 2 := by
    rw [show (4 : ℝ) = 2 ^ 2 by norm_num, Real.sqrt_sq (by norm_num)]
  have h := (display_noise_contract [4, 0] 2 0 (by norm_num) (by norm_num)).1
    (by rw [h4]; norm_num)
  refine ⟨by norm_num, by norm_num, by rw [h4]; norm_num, ?_, ?_⟩
  · rw [h.1, h4, hs]
  · rw [h.2, h4, hs]

end Prospect
